import Mathlib

/-!
Verification of the biterbot event-distribution and signal-detection core.

Shallow embedding of `src/biterbot` (Python) into Lean 4:
  * `helpers.interval_seconds`      → `intervalSeconds`
  * `marketdata.OhlcvFeed._run`     → `nextRun`, `feedPublish`, `readCloseTime`
  * `eventbus.EventBus`             → `BusState`, `publish`, `markSeen`, `busMatchKey`
  * `signals.EMACrossSignalGen`     → `emaCrossCheck`
  * `signals.TrendSignalGen`        → `trendCheck`

Strings are modelled as `List Char` (ASCII domain), Python floats as `Rat`
(exact real-valued idealisation), pandas frames as `List Bar`.
-/

/-! ## Interval parsing (`helpers.interval_seconds`) -/

/-- The whitespace characters removed by Python `str.strip()` (ASCII range). -/
def pyIsSpace (c : Char) : Bool :=
  c = ' ' || c = '\t' || c = '\n' || c = '\x0d' || c = '\x0b' || c = '\x0c'

/-- Python `str.strip()`: drop leading and trailing whitespace. -/
def pyStrip (s : List Char) : List Char :=
  ((s.dropWhile pyIsSpace).reverse.dropWhile pyIsSpace).reverse

/-- Python `str.lower()` restricted to the ASCII range. -/
def asciiLower (c : Char) : Char :=
  if 'A' ≤ c ∧ c ≤ 'Z' then Char.ofNat (c.toNat + 32) else c

/-- Python `str.lower()` on a whole string (ASCII domain). -/
def pyLower (s : List Char) : List Char := s.map asciiLower

/-- Numeric value of a digit string, as computed by Python `int(...)`
    on an ASCII digit string. -/
def digitsVal (s : List Char) : Nat :=
  s.foldl (fun acc c => 10 * acc + (c.toNat - '0'.toNat)) 0

/-- Seconds per unit: the dict `{'s':1, 'm':60, 'h':3600, 'd':86400}.get(unit)`
    from `helpers.interval_seconds`. -/
def unitSeconds (c : Char) : Option Nat :=
  if c = 's' then some 1
  else if c = 'm' then some 60
  else if c = 'h' then some 3600
  else if c = 'd' then some 86400
  else none

/-- Embedding of `helpers.interval_seconds`.  `none` models a raised
    `ValueError` (the spec's ConfigurationError). -/
def intervalSeconds (interval : List Char) : Option Nat :=
  let s := pyLower (pyStrip interval)
  if s.length < 2 ∨ ¬ (s.dropLast.all Char.isDigit) then none
  else
    let val := digitsVal s.dropLast
    match unitSeconds (s.getLastD ' ') with
    | none => none
    | some sec => if val ≤ 0 then none else some (sec * val)

/-- Modelled from the spec: the interval grammar
    `<positive integer><unit>` with unit ∈ \x7bs, m, h, d\x7d (§6).  Used to
    compare the claim's wording against the parser. -/
def grammarOK (s : List Char) : Bool :=
  2 ≤ s.length && s.dropLast.all Char.isDigit &&
    0 < digitsVal s.dropLast && (unitSeconds (s.getLastD ' ')).isSome

/-- Modelled from the spec: the seconds value the grammar assigns to a
    well-formed interval string. -/
def grammarVal (s : List Char) : Nat :=
  ((unitSeconds (s.getLastD ' ')).getD 0) * digitsVal s.dropLast

/-! ## Scheduler fire-time computation (`marketdata.OhlcvFeed._run`) -/

/-- Embedding of the fire-time computation in `OhlcvFeed._run`:
    `now = get_server_time() / 1000; next_run = (now // sec + 1) * sec + buffer`.
    `serverMs` is the collaborator's epoch-milliseconds reading. -/
def nextRun (serverMs : Int) (sec : Nat) (buffer : Int) : Rat :=
  let now : Rat := (serverMs : Rat) / 1000
  (⌊now / (sec : Rat)⌋ + 1) * (sec : Rat) + (buffer : Int)

/-- Modelled from the spec: `nextFire = ceil(now / D) * D + B` (§4.2). -/
def specNextFire (serverMs : Int) (sec : Nat) (buffer : Int) : Rat :=
  let now : Rat := (serverMs : Rat) / 1000
  (⌈now / (sec : Rat)⌉ : Int) * (sec : Rat) + (buffer : Int)

/-! ## Wildcard matching (`eventbus.EventBus._compile` / `publish`) -/

/-- Embedding of `EventBus._is_pattern`: does the key contain the wildcard marker? -/
def isPattern (key : List Char) : Bool := key.contains '*'

/-- A `.*` regex atom: consume any number of leading non-newline characters,
    trying the continuation `k` at every split point (regex backtracking). -/
def starScan (k : List Char → Bool) : List Char → Bool
  | [] => k []
  | c :: ts => k (c :: ts) || (if c = '\n' then false else starScan k ts)

/-- Semantics of the regex built by `EventBus._compile` and applied with
    `.match` in `publish`: each `*` compiles to `.*` (any-length span of
    non-newline characters), every other character to its escaped literal,
    the whole anchored as `^...$`.  Python's `$` accepts the end of the
    string or a position just before one trailing newline. -/
def reMatch : List Char → List Char → Bool
  | [], rest => rest = [] || rest = ['\n']
  | '*' :: ps, t => starScan (reMatch ps) t
  | _ :: _, [] => false
  | p :: ps, c :: ts => p = c && reMatch ps ts

/-- The spec's `*` atom: consume any number of leading characters
    (newlines included), trying the continuation at every split point. -/
def globStar (k : List Char → Bool) : List Char → Bool
  | [] => k []
  | c :: ts => k (c :: ts) || globStar k ts

/-- Modelled from the spec: wildcard matching where `*` stands for an
    any-length span of ANY characters, anchored at both ends (§4.1, C7). -/
def globSpec : List Char → List Char → Bool
  | [], rest => rest = []
  | '*' :: ps, t => globStar (globSpec ps) t
  | _ :: _, [] => false
  | p :: ps, c :: ts => p = c && globSpec ps ts

/-- The matching test `EventBus.publish` applies to one subscription key:
    pattern keys go through the compiled regex, plain keys through equality. -/
def busMatchKey (key topic : List Char) : Bool :=
  if isPattern key then reMatch key topic else key = topic

/-! ## EventBus state (`eventbus.EventBus`) -/

/-- Callbacks are identified by numeric handles; their behaviour is passed
    to `publish` as a map from handle to an `Except` result (an `error`
    models a raising callback). -/
abbrev CbId := Nat

/-- State of one `EventBus` instance.  `subs` models `_subs` (key → set of
    callbacks), `seen` the hash set `_seen`, `seenOrder` the deque
    `_seen_order` (head = oldest), `window` its `maxlen`, `nextId` the
    `_next_id` counter. -/
structure BusState where
  subs : List (List Char × List CbId)
  nextId : Int
  seen : List (List Char × Int)
  seenOrder : List (List Char × Int)
  window : Nat
deriving DecidableEq

/-- The deduplicated union of callbacks over all matching subscription keys
    (`callbacks: Set[CbType]` built in `publish`). -/
def matchedCbs (s : BusState) (topic : List Char) : List CbId :=
  ((s.subs.filter (fun kc => busMatchKey kc.1 topic)).flatMap (fun kc => kc.2)).dedup

/-- Python `collections.deque(maxlen=w).append`: appending to a full deque silently
    drops the leftmost (oldest) element. -/
def dequeAppend (w : Nat) (q : List (List Char × Int)) (x : List Char × Int) :
    List (List Char × Int) :=
  (q ++ [x]).drop (q.length + 1 - w)

/-- Python `set.add`. -/
def seenInsert (seen : List (List Char × Int)) (k : List Char × Int) :
    List (List Char × Int) :=
  if k ∈ seen then seen else seen ++ [k]

/-- The `while len(self._seen_order) > self._seen_order.maxlen:` loop of
    `EventBus._mark_seen`: pop the oldest pair from the deque and discard it
    from the set, while the deque is longer than its maxlen. -/
def purgeLoop (w : Nat) : List (List Char × Int) → List (List Char × Int) →
    List (List Char × Int) × List (List Char × Int)
  | [], seen => ([], seen)
  | old :: rest, seen =>
    if w < (old :: rest).length then purgeLoop w rest (seen.erase old)
    else (old :: rest, seen)

/-- Embedding of `EventBus._mark_seen`. -/
def markSeen (s : BusState) (topic : List Char) (msgId : Int) : BusState :=
  let key := (topic, msgId)
  let seen1 := seenInsert s.seen key
  let order1 := dequeAppend s.window s.seenOrder key
  let (order2, seen2) := purgeLoop s.window order1 seen1
  { s with seen := seen2, seenOrder := order2 }

deriving instance DecidableEq for Except

/-- Outcome of one `publish` call: the post-state, the message id returned,
    the callbacks invoked (in dispatch order, each at most once), and the
    per-callback results collected by `gather(..., return_exceptions=True)`. -/
structure PubResult where
  state : BusState
  mid : Int
  invoked : List CbId
  results : List (Except (List Char) Unit)
deriving DecidableEq

/-- Embedding of `EventBus.publish`.  `beh` gives each callback's behaviour;
    an `Except.error` models a callback that raises.  The function is total
    because the source catches every callback error (`return_exceptions=True`)
    and per-key matching errors (`except Exception: continue`; unreachable
    here since the embedded matcher is total). -/
def publish (s : BusState) (topic : List Char) (msgId : Option Int)
    (dedupe : Bool) (beh : CbId → Except (List Char) Unit) : PubResult :=
  let alloc : Int × BusState :=
    match msgId with
    | none => (s.nextId, { s with nextId := s.nextId + 1 })
    | some m => (m, s)
  let mid := alloc.1
  let s1 := alloc.2
  if dedupe ∧ (topic, mid) ∈ s1.seen then
    { state := s1, mid := mid, invoked := [], results := [] }
  else
    let cbs := matchedCbs s1 topic
    let rs := cbs.map beh
    let s2 := if dedupe then markSeen s1 topic mid else s1
    { state := s2, mid := mid, invoked := cbs, results := rs }

/-! ## OHLCV feed publish step (`marketdata.OhlcvFeed._run`, lines 115-126) -/

/-- One fetched frame row; `closeTime = none` models a frame whose
    `close_time` access fails (missing column). -/
structure Row where
  closeTime : Option Int
deriving DecidableEq

/-- Embedding of `try: close_time = int(df.iloc[-1]['close_time']) except: close_time = None`:
    reading the last row's close time, `none` on an empty frame or a missing
    column. -/
def readCloseTime (df : List Row) : Option Int :=
  match df.getLast? with
  | none => none
  | some r => r.closeTime

/-- The publish step of `OhlcvFeed._run`: close time readable → caller-supplied
    id, otherwise fall back to a bus-allocated id; dedupe enabled either way. -/
def feedPublish (s : BusState) (topic : List Char) (df : List Row)
    (beh : CbId → Except (List Char) Unit) : PubResult :=
  match readCloseTime df with
  | some ct => publish s topic (some ct) true beh
  | none => publish s topic none true beh

/-! ## Detector data model (`signals.py`) -/

/-- The `SignalDirection` literal type: `"UP" | "DOWN"`. -/
inductive Direction
  | UP
  | DOWN
deriving DecidableEq, Repr

/-- The `Signal` TypedDict (`at` is spelled `atTime`: `at` is a Lean keyword). -/
structure Signal where
  name : List Char
  symbol : List Char
  interval : List Char
  direction : Direction
  strength : Rat
  atTime : Int
  price : Rat
deriving DecidableEq, Repr

/-- One OHLCV bar, as accessed by the detectors (`high`, `low`, `close`,
    `close_time`). -/
structure Bar where
  high : Rat
  low : Rat
  close : Rat
  closeTime : Int
deriving DecidableEq, Repr, Inhabited

/-- Value of `close.ewm(span=w, adjust=False).mean()` at index `i`
    (`ta.trend.ema_indicator`): `y 0 = x 0`,
    `y (i+1) = a * x (i+1) + (1 - a) * y i` with `a = 2 / (w + 1)`.
    `min_periods=w` only masks outputs at indices `< w - 1` as NaN; on every
    index the detectors read under their length precondition the value is
    the one below. -/
def emaVal (w : Nat) (xs : List Rat) : Nat → Rat
  | 0 => xs.getD 0 0
  | i + 1 =>
    let a : Rat := 2 / ((w : Rat) + 1)
    a * xs.getD (i + 1) 0 + (1 - a) * emaVal w xs i

/-- The true range used by `ta.volatility.average_true_range`:
    `max(high - low, |high - prevClose|, |low - prevClose|)`, and `high - low`
    at index 0 (pandas `max` skips the NaN shifted close there).  For indices
    ≥ 1 this also equals the detector's own `df["tr"]`
    (`np.maximum.reduce([tr1, tr2, tr3])`), whose index-0 entry is NaN
    instead because `np.maximum` propagates NaN. -/
def taTrVal (df : List Bar) : Nat → Rat
  | 0 => (df.getD 0 default).high - (df.getD 0 default).low
  | i + 1 =>
    let b := df.getD (i + 1) default
    let pc := (df.getD i default).close
    max (b.high - b.low) (max |b.high - pc| |b.low - pc|)

/-- Embedding of `ta.volatility.average_true_range` with window `w`: zeros before index
    `w - 1`, the plain mean of the first `w` true ranges at index `w - 1`,
    then Wilder smoothing `(atr (i-1) * (w - 1) + tr i) / w`. -/
def atrVal (w : Nat) (df : List Bar) : Nat → Rat
  | 0 => if w = 1 then taTrVal df 0 else 0
  | i + 1 =>
    if i + 2 < w then 0
    else if i + 2 = w then ((List.range w).map (taTrVal df)).sum / (w : Rat)
    else (atrVal w df i * ((w : Rat) - 1) + taTrVal df (i + 1)) / (w : Rat)

/-- Value of `df["tr"].ewm(span=span, adjust=False, min_periods=span).mean()` at
    index `i`.  The source's TR series is NaN at index 0, so the recursion
    starts from index 1 (`y 1 = tr 1`); the index-0 output is NaN in the
    source and never read under the length precondition, it is set to 0
    here. -/
def trFastVal (span : Nat) (df : List Bar) : Nat → Rat
  | 0 => 0
  | 1 => taTrVal df 1
  | i + 2 =>
    let a : Rat := 2 / ((span : Rat) + 1)
    a * taTrVal df (i + 2) + (1 - a) * trFastVal span df (i + 1)

/-! ## EMA-cross detector (`signals.EMACrossSignalGen.check`) -/

/-- Constructor arguments of `EMACrossSignalGen`. -/
structure EmaCrossCfg where
  name : List Char
  symbol : List Char
  interval : List Char
  emaShortW : Nat
  emaLongW : Nat
deriving Repr

/-- Embedding of `EMACrossSignalGen.check` on a supplied frame (the
    client-fetch fallback is outside this model).  The `pd.isna` test on the
    long EMA at the last two rows is the `min_periods` mask: NaN exactly when
    fewer than `emaLongW` observations have been seen. -/
def emaCrossCheck (cfg : EmaCrossCfg) (df : List Bar) : Option Signal :=
  let need := max cfg.emaShortW cfg.emaLongW + 2
  if df.length < need then none
  else
    let closes := df.map Bar.close
    let lastI := df.length - 1
    let prevI := df.length - 2
    if lastI + 1 < cfg.emaLongW ∨ prevI + 1 < cfg.emaLongW then none
    else
      let eS := emaVal cfg.emaShortW closes
      let eL := emaVal cfg.emaLongW closes
      let crossedUp := eS prevI < eL prevI ∧ eS lastI > eL lastI
      let crossedDn := eS prevI > eL prevI ∧ eS lastI < eL lastI
      if crossedUp ∨ crossedDn then
        let base := max |eL lastI| (1 / 1000000000000 : Rat)
        some { name := cfg.name, symbol := cfg.symbol, interval := cfg.interval,
               direction := if crossedUp then Direction.UP else Direction.DOWN,
               strength := (eS lastI - eL lastI) / base,
               atTime := (df.getD lastI default).closeTime,
               price := (df.getD lastI default).close }
      else none

/-! ## Trend detector (`signals.TrendSignalGen.check`) -/

/-- Constructor arguments of `TrendSignalGen`. -/
structure TrendCfg where
  name : List Char
  symbol : List Char
  interval : List Char
  emaShortW : Nat
  emaLongW : Nat
  atrW : Nat
  trFastW : Nat
  ratioThr : Rat
  hystThr : Rat
  confirmBars : Nat
deriving Repr

/-- The precondition `need = max(ema_short, ema_long, atr, tr_fast) + confirm_bars + 2`. -/
def trendNeed (cfg : TrendCfg) : Nat :=
  max cfg.emaShortW (max cfg.emaLongW (max cfg.atrW cfg.trFastW)) +
    cfg.confirmBars + 2

/-- Short EMA of closes at absolute row `p`. -/
def emaShortAt (cfg : TrendCfg) (df : List Bar) (p : Nat) : Rat :=
  emaVal cfg.emaShortW (df.map Bar.close) p

/-- Long EMA of closes at absolute row `p`. -/
def emaLongAt (cfg : TrendCfg) (df : List Bar) (p : Nat) : Rat :=
  emaVal cfg.emaLongW (df.map Bar.close) p

/-- The test `prev.ema_short < prev.ema_long and curr.ema_short > curr.ema_long`
    at absolute row `p` (with `prev` = row `p - 1`). -/
def upCrossAt (cfg : TrendCfg) (df : List Bar) (p : Nat) : Prop :=
  emaShortAt cfg df (p - 1) < emaLongAt cfg df (p - 1) ∧
    emaShortAt cfg df p > emaLongAt cfg df p

/-- The symmetric down-crossing test at absolute row `p`. -/
def dnCrossAt (cfg : TrendCfg) (df : List Bar) (p : Nat) : Prop :=
  emaShortAt cfg df (p - 1) > emaLongAt cfg df (p - 1) ∧
    emaShortAt cfg df p < emaLongAt cfg df p

instance (cfg : TrendCfg) (df : List Bar) (p : Nat) :
    Decidable (upCrossAt cfg df p) := by
  unfold upCrossAt; infer_instance

instance (cfg : TrendCfg) (df : List Bar) (p : Nat) :
    Decidable (dnCrossAt cfg df p) := by
  unfold dnCrossAt; infer_instance

/-- The ratio `r = curr["tr_fast"] / curr["atr_slow"]` at absolute row `p`. -/
def ratioAt (cfg : TrendCfg) (df : List Bar) (p : Nat) : Rat :=
  trFastVal cfg.trFastW df p / atrVal cfg.atrW df p

/-- The divisor of the hysteresis computation at `signals.py:218`: the long
    EMA itself, with no `max(|longEMA|, eps)` guard. -/
def trendHystDivisor (emaLong : Rat) : Rat := emaLong

/-- The value `hysteresis = (curr["ema_short"] - curr["ema_long"]) / curr["ema_long"]`
    at absolute row `p`. -/
def hystGapAt (cfg : TrendCfg) (df : List Bar) (p : Nat) : Rat :=
  (emaShortAt cfg df p - emaLongAt cfg df p) /
    trendHystDivisor (emaLongAt cfg df p)

/-- One iteration of the confirmation loop's state update at absolute row
    `p`: a crossing overwrites the tracked direction and resets the
    volatility flag; a ratio above the threshold then sets the flag. -/
def trendStep (cfg : TrendCfg) (df : List Bar) (p : Nat)
    (st : Option Direction × Bool) : Option Direction × Bool :=
  let cross :=
    if upCrossAt cfg df p then some Direction.UP
    else if dnCrossAt cfg df p then some Direction.DOWN
    else st.1
  let vola1 := if upCrossAt cfg df p ∨ dnCrossAt cfg df p then false else st.2
  let vola2 := if ratioAt cfg df p > cfg.ratioThr then true else vola1
  (cross, vola2)

/-- The absolute row scanned at loop iteration `j` (`j = i + confirmBars + 1`
    for the source's relative offset `i ∈ [-(confirmBars+1), -1]`). -/
def scanPos (cfg : TrendCfg) (df : List Bar) (j : Nat) : Nat :=
  df.length - (cfg.confirmBars + 1) + j

/-- The `(cross, vola_ok)` state the loop holds when it reaches iteration
    `j`: `(None, False)` at iteration 0, otherwise the state after the
    updates of iterations `0 .. j-1`. -/
def trendStateBefore (cfg : TrendCfg) (df : List Bar) : Nat → Option Direction × Bool
  | 0 => (none, false)
  | j + 1 => trendStep cfg df (scanPos cfg df j) (trendStateBefore cfg df j)

/-- Loop iteration `j` reaches the emission test and passes it: after the
    iteration's own state update, a crossing direction is tracked, the
    volatility flag is set, and the absolute normalized EMA gap is at least
    the hysteresis threshold. -/
def trendFiresAt (cfg : TrendCfg) (df : List Bar) (j : Nat) : Prop :=
  (trendStep cfg df (scanPos cfg df j) (trendStateBefore cfg df j)).1.isSome = true ∧
    (trendStep cfg df (scanPos cfg df j) (trendStateBefore cfg df j)).2 = true ∧
    |hystGapAt cfg df (scanPos cfg df j)| ≥ cfg.hystThr

/-- The confirmation loop of `TrendSignalGen.check` over the remaining
    iteration indices: on the first iteration whose emission test passes,
    emit if it is the last one (`i == -1`), otherwise break with no result. -/
def trendGo (cfg : TrendCfg) (df : List Bar) :
    List Nat → Option Direction × Bool → Option Signal
  | [], _ => none
  | j :: rest, st =>
    let p := scanPos cfg df j
    let st2 := trendStep cfg df p st
    if st2.1.isSome = true ∧ st2.2 = true ∧ |hystGapAt cfg df p| ≥ cfg.hystThr then
      if j = cfg.confirmBars then
        some { name := cfg.name, symbol := cfg.symbol, interval := cfg.interval,
               direction := if st2.1 = some Direction.UP then Direction.UP
                            else Direction.DOWN,
               strength := ratioAt cfg df p - cfg.ratioThr,
               atTime := (df.getD p default).closeTime,
               price := (df.getD p default).close }
      else none
    else trendGo cfg df rest st2

/-- Embedding of `TrendSignalGen.check` on a supplied frame. -/
def trendCheck (cfg : TrendCfg) (df : List Bar) : Option Signal :=
  if df.length < trendNeed cfg then none
  else trendGo cfg df (List.range (cfg.confirmBars + 1)) (none, false)

/-! ## Concrete instances used by the theorems -/

/-- A small `TrendSignalGen` configuration (windows 1/2/2/1, defaults for the
    thresholds: `ratio_th = 1.0`, `hysteresis_th = 0.002`, `confirm_bars = 3`);
    its `need` is 7. -/
def cfg7 : TrendCfg :=
  { name := ['t','r','e','n','d'], symbol := ['B','T','C'],
    interval := ['1','m'], emaShortW := 1, emaLongW := 2, atrW := 2,
    trFastW := 1, ratioThr := 1, hystThr := 1 / 500, confirmBars := 3 }

/-- Seven bars realising the C3 scenario: EMA up-crossing at offset −3
    (row 4), volatility ratio first above the threshold at offset −2 (row 5),
    hysteresis first satisfied at offset −1 (row 6). -/
def s1bars : List Bar :=
  [ { high := 201/2, low := 199/2, close := 100, closeTime := 1000 },
    { high := 201/2, low := 199/2, close := 100, closeTime := 2000 },
    { high := 201/2, low := 199/2, close := 100, closeTime := 3000 },
    { high := 100, low := 99, close := 99, closeTime := 4000 },
    { high := 199/2, low := 99, close := 497/5, closeTime := 5000 },
    { high := 502/5, low := 496/5, close := 497/5, closeTime := 6000 },
    { high := 503/5, low := 993/10, close := 201/2, closeTime := 7000 } ]

/-- The same series with row 5 altered so that the hysteresis condition
    already holds at offset −2 (close pushed to 100.4, range widened so the
    volatility ratio still exceeds the threshold there). -/
def s2bars : List Bar :=
  [ { high := 201/2, low := 199/2, close := 100, closeTime := 1000 },
    { high := 201/2, low := 199/2, close := 100, closeTime := 2000 },
    { high := 201/2, low := 199/2, close := 100, closeTime := 3000 },
    { high := 100, low := 99, close := 99, closeTime := 4000 },
    { high := 199/2, low := 99, close := 497/5, closeTime := 5000 },
    { high := 1009/10, low := 496/5, close := 502/5, closeTime := 6000 },
    { high := 503/5, low := 993/10, close := 201/2, closeTime := 7000 } ]

/-- The signal the C3 scenario emits. -/
def sig1 : Signal :=
  { name := ['t','r','e','n','d'], symbol := ['B','T','C'],
    interval := ['1','m'], direction := Direction.UP, strength := 1/7,
    atTime := 7000, price := 201/2 }

instance (cfg : TrendCfg) (df : List Bar) (j : Nat) :
    Decidable (trendFiresAt cfg df j) := by
  unfold trendFiresAt; infer_instance

/-- A callback behaviour that always completes normally. -/
def okBeh : CbId → Except (List Char) Unit := fun _ => Except.ok ()

/-- A behaviour where callback 0 raises and every other callback completes. -/
def errBeh : CbId → Except (List Char) Unit :=
  fun i => if i = 0 then Except.error ['b','o','o','m'] else Except.ok ()

/-- A bus with `dedupe_window=1` and one subscriber on topic `t` (C1). -/
def busC1 : BusState :=
  { subs := [(['t'], [0])], nextId := 1, seen := [], seenOrder := [],
    window := 1 }

/-- First publish of the C1 sequence: `(t, 1)` with dedupe. -/
def stepA : PubResult := publish busC1 ['t'] (some 1) true okBeh

/-- Second publish: a distinct pair `(t, 2)`, filling the size-1 window past
    capacity so the FIFO evicts `(t, 1)`. -/
def stepB : PubResult := publish stepA.state ['t'] (some 2) true okBeh

/-- Third publish: the evicted pair `(t, 1)` again, with dedupe. -/
def stepC : PubResult := publish stepB.state ['t'] (some 1) true okBeh

/-- A fresh bus with a direct and a wildcard subscriber (C2). -/
def busC2 : BusState :=
  { subs := [(['t'], [0]), (['*'], [1])], nextId := 1, seen := [],
    seenOrder := [], window := 8192 }

/-- A fresh bus with two subscribers matching topic `t` (C8). -/
def busC8 : BusState :=
  { subs := [(['t'], [0]), (['t','*'], [1])], nextId := 1, seen := [],
    seenOrder := [], window := 8192 }

/-- A bus whose dedupe set already holds `(t, 1)` while the id allocator is
    still at 1 (C10 counterexample). -/
def busC10 : BusState :=
  { subs := [(['t'], [0])], nextId := 1, seen := [(['t'], 1)],
    seenOrder := [(['t'], 1)], window := 8192 }

/-- A bus whose allocator (at 5) does not collide with the seen set (C10
    witness). -/
def busC10b : BusState :=
  { subs := [(['t'], [0])], nextId := 5, seen := [(['t'], 1)],
    seenOrder := [(['t'], 1)], window := 8192 }

/-- A small `EMACrossSignalGen` configuration (windows 1 and 2; `need` 4). -/
def cfg4e : EmaCrossCfg :=
  { name := ['e'], symbol := ['B'], interval := ['1','m'],
    emaShortW := 1, emaLongW := 2 }

/-- Four bars whose short EMA crosses above the long EMA at the last bar. -/
def e4bars : List Bar :=
  [ { high := 101, low := 99, close := 100, closeTime := 1000 },
    { high := 101, low := 99, close := 100, closeTime := 2000 },
    { high := 101, low := 98, close := 99, closeTime := 3000 },
    { high := 101, low := 98, close := 100, closeTime := 4000 } ]

/-- The signal `emaCrossCheck cfg4e e4bars` returns. -/
def sigE : Signal :=
  { name := ['e'], symbol := ['B'], interval := ['1','m'],
    direction := Direction.UP, strength := 1/449, atTime := 4000,
    price := 100 }

/-- The subscription pattern `signal:*`. -/
def sigStar : List Char := ['s','i','g','n','a','l',':','*']

/-- The topic `signal:BTCUSDT_1m`. -/
def topicBTC : List Char :=
  ['s','i','g','n','a','l',':','B','T','C','U','S','D','T','_','1','m']

/-- The topic `signal:ETHUSDT_1h`. -/
def topicETH : List Char :=
  ['s','i','g','n','a','l',':','E','T','H','U','S','D','T','_','1','h']

/-- The topic `ohlcv:BTCUSDT_1m`. -/
def topicOhlcv : List Char :=
  ['o','h','l','c','v',':','B','T','C','U','S','D','T','_','1','m']

/-- Modelled from the spec: the hysteresis normalized gap with the spec's
    guarded divisor `max(|longEMA|, eps)` (§4.5, C5). -/
def specHystGap (emaS emaL eps : Rat) : Rat :=
  (emaS - emaL) / max |emaL| eps

/-- The short EMA the EMA-cross detector computes, at row `i`. -/
def emaCrossShort (cfg : EmaCrossCfg) (df : List Bar) (i : Nat) : Rat :=
  emaVal cfg.emaShortW (df.map Bar.close) i

/-- The long EMA the EMA-cross detector computes, at row `i`. -/
def emaCrossLong (cfg : EmaCrossCfg) (df : List Bar) (i : Nat) : Rat :=
  emaVal cfg.emaLongW (df.map Bar.close) i

/-- The claim's UP condition: over the final two bars, the previous short
    EMA is below the previous long EMA and the current short EMA is above
    the current long EMA. -/
def emaCrossedUp (cfg : EmaCrossCfg) (df : List Bar) : Prop :=
  emaCrossShort cfg df (df.length - 2) < emaCrossLong cfg df (df.length - 2) ∧
    emaCrossShort cfg df (df.length - 1) > emaCrossLong cfg df (df.length - 1)

/-- The claim's DOWN condition (the inverse crossing). -/
def emaCrossedDn (cfg : EmaCrossCfg) (df : List Bar) : Prop :=
  emaCrossShort cfg df (df.length - 2) > emaCrossLong cfg df (df.length - 2) ∧
    emaCrossShort cfg df (df.length - 1) < emaCrossLong cfg df (df.length - 1)

instance (cfg : EmaCrossCfg) (df : List Bar) : Decidable (emaCrossedUp cfg df) := by
  unfold emaCrossedUp
  infer_instance

instance (cfg : EmaCrossCfg) (df : List Bar) : Decidable (emaCrossedDn cfg df) := by
  unfold emaCrossedDn
  infer_instance

/-- The signal the claim says the EMA-cross detector returns: the given
    direction, strength `(shortEMA - longEMA) / max(|longEMA|, eps)` at the
    crossing (last) bar, stamped with that bar's close time and price. -/
def emaCrossSignal (cfg : EmaCrossCfg) (df : List Bar) (dir : Direction) : Signal :=
  { name := cfg.name, symbol := cfg.symbol, interval := cfg.interval,
    direction := dir,
    strength :=
      (emaCrossShort cfg df (df.length - 1) - emaCrossLong cfg df (df.length - 1)) /
        max |emaCrossLong cfg df (df.length - 1)| (1 / 1000000000000 : Rat),
    atTime := (df.getD (df.length - 1) default).closeTime,
    price := (df.getD (df.length - 1) default).close }

/-- The signal the trend detector emits when its last loop iteration fires:
    direction from the tracked crossing, strength `ratio - ratioThreshold`
    at the newest bar, stamped with that bar's close time and price. -/
def trendEmitSig (cfg : TrendCfg) (df : List Bar) : Signal :=
  { name := cfg.name, symbol := cfg.symbol, interval := cfg.interval,
    direction :=
      if (trendStep cfg df (scanPos cfg df cfg.confirmBars)
            (trendStateBefore cfg df cfg.confirmBars)).1 = some Direction.UP
      then Direction.UP else Direction.DOWN,
    strength := ratioAt cfg df (scanPos cfg df cfg.confirmBars) - cfg.ratioThr,
    atTime := (df.getD (scanPos cfg df cfg.confirmBars) default).closeTime,
    price := (df.getD (scanPos cfg df cfg.confirmBars) default).close }

/-! ## Helper lemmas: dedupe window mechanics -/

theorem purgeLoop_of_le (w : Nat) (order seen : List (List Char × Int))
    (h : order.length ≤ w) : purgeLoop w order seen = (order, seen) := by
  cases order with
  | nil => rfl
  | cons a rest =>
    unfold purgeLoop
    rw [if_neg]
    omega

theorem dequeAppend_length_le (w : Nat) (q : List (List Char × Int))
    (x : List Char × Int) : (dequeAppend w q x).length ≤ w := by
  simp [dequeAppend]
  omega

theorem markSeen_eq (s : BusState) (t : List Char) (m : Int) :
    markSeen s t m =
      { s with seen := seenInsert s.seen (t, m),
               seenOrder := dequeAppend s.window s.seenOrder (t, m) } := by
  simp only [markSeen]
  rw [purgeLoop_of_le _ _ _ (dequeAppend_length_le _ _ _)]

theorem mem_seenInsert_self (seen : List (List Char × Int))
    (k : List Char × Int) : k ∈ seenInsert seen k := by
  unfold seenInsert
  split <;> simp_all

theorem matchedCbs_nodup (s : BusState) (t : List Char) :
    (matchedCbs s t).Nodup :=
  List.nodup_dedup _

theorem publish_not_seen (s : BusState) (t : List Char) (m : Int)
    (beh : CbId → Except (List Char) Unit) (h : (t, m) ∉ s.seen) :
    publish s t (some m) true beh =
      { state := markSeen s t m, mid := m, invoked := matchedCbs s t,
        results := (matchedCbs s t).map beh } := by
  unfold publish
  rw [if_neg (fun hc => h hc.2)]
  rfl

theorem publish_alloc_not_seen (s : BusState) (t : List Char)
    (beh : CbId → Except (List Char) Unit) (h : (t, s.nextId) ∉ s.seen) :
    publish s t none true beh =
      { state := markSeen { s with nextId := s.nextId + 1 } t s.nextId,
        mid := s.nextId, invoked := matchedCbs s t,
        results := (matchedCbs s t).map beh } := by
  unfold publish
  rw [if_neg (fun hc => h hc.2)]
  rfl

theorem publish_alloc_seen (s : BusState) (t : List Char)
    (beh : CbId → Except (List Char) Unit) (h : (t, s.nextId) ∈ s.seen) :
    publish s t none true beh =
      { state := { s with nextId := s.nextId + 1 }, mid := s.nextId,
        invoked := [], results := [] } := by
  unfold publish
  rw [if_pos ⟨rfl, h⟩]

theorem publish_seen (s : BusState) (t : List Char) (m : Int)
    (beh : CbId → Except (List Char) Unit) (h : (t, m) ∈ s.seen) :
    publish s t (some m) true beh =
      { state := s, mid := m, invoked := [], results := [] } := by
  unfold publish
  rw [if_pos ⟨rfl, h⟩]

/-! ## C1, C2, C8, C10: EventBus claims -/

/-- C1: the claim says the dedupe store is a bounded FIFO with a companion
    lookup set, oldest evicted first, and that re-publishing the oldest
    evicted pair with dedupe enabled is delivered again.  The code violates
    this: `deque(maxlen=...)` already drops the oldest element on append, so
    the `while len(...) > maxlen` cleanup in `EventBus._mark_seen` never
    runs and evicted pairs stay in `_seen` forever --- contradicting the
    source's own comment (`eventbus.py:30-31`, "when maxlen fills the oldest
    element is removed and deleted from `_seen`").  Evaluated at the failing
    input (window 1, publishes `(t,1)`, `(t,2)`, then `(t,1)` again): the
    pair `(t,1)` has left the FIFO yet is still in the lookup set, and its
    re-publish invokes no callback. -/
theorem dedupe_window_eviction_bug_eval :
    stepA.invoked = [0] ∧ stepB.invoked = [0] ∧
      stepB.state.seenOrder = [(['t'], 2)] ∧
      (['t'], (1 : Int)) ∉ stepB.state.seenOrder ∧
      (['t'], (1 : Int)) ∈ stepB.state.seen ∧
      stepC.invoked = [] ∧ stepC.mid = 1 := by
  decide

/-- C2: publishing `(topic, payload, msg_id, dedupe=True)` twice, with the
    pair unseen beforehand, returns the same id both times, invokes zero
    callbacks on the second call, leaves the bus state unchanged by the
    second call, and delivers to each matching subscriber exactly once
    across the two calls. -/
theorem publish_dedupe_idempotent (s : BusState) (t : List Char) (m : Int)
    (beh beh2 : CbId → Except (List Char) Unit) (h : (t, m) ∉ s.seen) :
    (publish s t (some m) true beh).mid = m ∧
    (publish s t (some m) true beh).invoked = matchedCbs s t ∧
    (publish (publish s t (some m) true beh).state t (some m) true beh2).mid = m ∧
    (publish (publish s t (some m) true beh).state t (some m) true beh2).invoked = [] ∧
    (publish (publish s t (some m) true beh).state t (some m) true beh2).state =
      (publish s t (some m) true beh).state ∧
    ∀ cb ∈ matchedCbs s t,
      ((publish s t (some m) true beh).invoked ++
        (publish (publish s t (some m) true beh).state t (some m) true beh2).invoked).count
          cb = 1 := by
  have h1 := publish_not_seen s t m beh h
  have h2 : (t, m) ∈ (markSeen s t m).seen := by
    rw [markSeen_eq]
    exact mem_seenInsert_self _ _
  have h3 := publish_seen (markSeen s t m) t m beh2 h2
  rw [h1]
  simp only [h3]
  refine ⟨trivial, trivial, trivial, trivial, trivial, ?_⟩
  intro cb hcb
  simp only [List.append_nil]
  exact List.count_eq_one_of_mem (matchedCbs_nodup s t) hcb

/-- C2 witness: a fresh bus with a direct and a wildcard subscriber,
    published twice with `msg_id = 42`. -/
theorem publish_dedupe_idempotent_witness :
    ((['t'], (42 : Int)) ∉ busC2.seen) ∧
      (publish busC2 ['t'] (some 42) true okBeh).mid = 42 ∧
      (publish (publish busC2 ['t'] (some 42) true okBeh).state ['t'] (some 42)
        true okBeh).invoked = [] :=
  ⟨by decide,
   (publish_dedupe_idempotent busC2 ['t'] 42 okBeh okBeh (by decide)).1,
   (publish_dedupe_idempotent busC2 ['t'] 42 okBeh okBeh (by decide)).2.2.2.1⟩

/-- C8: for a publish with dedupe of an unseen pair, every matching callback
    is invoked and its result collected individually (a raising callback is
    recorded as an `error` without cancelling its siblings), the call itself
    completes returning the supplied id for EVERY behaviour map, and the
    pair is recorded as seen in the post-state even when some callbacks
    failed. -/
theorem publish_error_containment (s : BusState) (t : List Char) (m : Int)
    (beh : CbId → Except (List Char) Unit) (h : (t, m) ∉ s.seen) :
    (publish s t (some m) true beh).mid = m ∧
    (publish s t (some m) true beh).invoked = matchedCbs s t ∧
    (publish s t (some m) true beh).results = (matchedCbs s t).map beh ∧
    (t, m) ∈ (publish s t (some m) true beh).state.seen := by
  rw [publish_not_seen s t m beh h]
  refine ⟨rfl, rfl, rfl, ?_⟩
  rw [markSeen_eq]
  exact mem_seenInsert_self _ _

/-- C8 witness: two subscribers match topic `t`; callback 0 raises, callback
    1 still runs, the publish completes and the pair is marked seen. -/
theorem publish_error_containment_witness :
    ((['t'], (5 : Int)) ∉ busC8.seen) ∧
      (publish busC8 ['t'] (some 5) true errBeh).invoked = [0, 1] ∧
      (publish busC8 ['t'] (some 5) true errBeh).results =
        [Except.error ['b','o','o','m'], Except.ok ()] ∧
      (['t'], (5 : Int)) ∈ (publish busC8 ['t'] (some 5) true errBeh).state.seen := by
  have h := publish_error_containment busC8 ['t'] 5 errBeh (by decide)
  exact ⟨by decide, h.2.1.trans (by decide), h.2.2.1.trans (by decide), h.2.2.2⟩

/-- C10 counterexample: the claim says a fallback publish (close time
    unreadable) with a fresh bus-allocated id is NEVER suppressed as a
    duplicate.  On a bus whose dedupe set already holds `(t, 1)` from a
    caller-supplied id while the allocator is still at 1, the fallback
    publish of an empty frame allocates id 1 and IS suppressed: it invokes
    no callback although a subscriber matches. -/
theorem feed_fallback_suppressed_counterexample :
    readCloseTime ([] : List Row) = none ∧
      matchedCbs busC10 ['t'] = [0] ∧
      (feedPublish busC10 ['t'] [] okBeh).mid = 1 ∧
      (feedPublish busC10 ['t'] [] okBeh).invoked = [] := by
  decide

/-- C10 (amended): when the fetched frame's last-bar close time cannot be
    read, the cycle is not skipped: the series is still published with
    dedupe enabled under the bus-allocated id `nextId` (which the call then
    increments, so allocated ids never repeat), and --- provided that id's
    pair is not already in the dedupe lookup set, which only a
    caller-supplied id could have put there --- it is delivered to every
    matching subscriber and then recorded as seen. -/
theorem feed_fallback_fresh_id (s : BusState) (t : List Char) (df : List Row)
    (beh : CbId → Except (List Char) Unit) (hct : readCloseTime df = none) :
    (feedPublish s t df beh).mid = s.nextId ∧
    (feedPublish s t df beh).state.nextId = s.nextId + 1 ∧
    ((t, s.nextId) ∉ s.seen →
      (feedPublish s t df beh).invoked = matchedCbs s t ∧
        (t, s.nextId) ∈ (feedPublish s t df beh).state.seen) := by
  simp only [feedPublish, hct]
  by_cases hm : (t, s.nextId) ∈ s.seen
  · rw [publish_alloc_seen s t beh hm]
    exact ⟨rfl, rfl, fun hn => absurd hm hn⟩
  · rw [publish_alloc_not_seen s t beh hm]
    refine ⟨rfl, ?_, fun _ => ⟨rfl, ?_⟩⟩
    · rw [markSeen_eq]
    · rw [markSeen_eq]
      exact mem_seenInsert_self _ _

/-- C10 witness: allocator at 5, dedupe set holding only `(t, 1)`: the
    fallback publish of an empty frame returns id 5, bumps the allocator,
    and delivers to the matching subscriber. -/
theorem feed_fallback_fresh_id_witness :
    (readCloseTime ([] : List Row) = none ∧ (['t'], (5 : Int)) ∉ busC10b.seen) ∧
      (feedPublish busC10b ['t'] [] okBeh).mid = 5 ∧
      (feedPublish busC10b ['t'] [] okBeh).state.nextId = 6 ∧
      (feedPublish busC10b ['t'] [] okBeh).invoked = [0] := by
  have h := feed_fallback_fresh_id busC10b ['t'] [] okBeh rfl
  exact ⟨⟨rfl, by decide⟩, h.1, h.2.1, (h.2.2 (by decide)).1.trans (by decide)⟩

/-! ## Helper lemmas: wildcard matching -/

theorem starScan_eq_globStar (ps : List Char)
    (ih : ∀ u, '\n' ∉ u → reMatch ps u = globSpec ps u) :
    ∀ t, '\n' ∉ t → starScan (reMatch ps) t = globStar (globSpec ps) t := by
  intro t
  induction t with
  | nil =>
    intro _
    simpa [starScan, globStar] using ih [] (by simp)
  | cons c ts iht =>
    intro ht
    have hc : ¬ (c = '\n') := fun h => ht (by simp [h])
    have hts : '\n' ∉ ts := fun h => ht (List.mem_cons_of_mem _ h)
    simp [starScan, globStar, hc, ih _ ht, iht hts]

theorem reMatch_eq_globSpec : ∀ (ps t : List Char), '\n' ∉ t →
    reMatch ps t = globSpec ps t := by
  intro ps
  induction ps with
  | nil =>
    intro t ht
    have hne : ¬ (t = ['\n']) := by
      rintro rfl
      simp at ht
    simp [reMatch, globSpec, hne]
  | cons p ps ih =>
    intro t ht
    by_cases hp : p = '*'
    · subst hp
      simp only [reMatch, globSpec]
      exact starScan_eq_globStar ps ih t ht
    · cases t with
      | nil => simp [reMatch, globSpec, hp]
      | cons c ts =>
        have hts : '\n' ∉ ts := fun h => ht (List.mem_cons_of_mem _ h)
        simp [reMatch, globSpec, hp, ih ts hts]

theorem globStar_of_head (k : List Char → Bool) (t : List Char)
    (h : k t = true) : globStar k t = true := by
  cases t <;> simp [globStar, h]

theorem globSpec_self : ∀ p : List Char, globSpec p p = true := by
  intro p
  induction p with
  | nil => rfl
  | cons a ps ih =>
    by_cases ha : a = '*'
    · subst ha
      have h2 : globStar (globSpec ps) ps = true := globStar_of_head _ _ ih
      simp [globSpec, globStar, h2]
    · simp [globSpec, ha, ih]

/-! ## C7: wildcard matching claims -/

/-- C7 counterexample: the claim (key matches topic iff equal, or a pattern
    whose wildcard --- spanning ANY characters --- fully matches, anchored at
    both ends) fails at key `a*b` and topic `a⏎b`: Python's `.*` does not
    cross a newline, so the bus does not match, while the claim's wildcard
    semantics does. -/
theorem wildcard_newline_counterexample :
    ¬ (busMatchKey ['a','*','b'] ['a','\n','b'] = true ↔
        (['a','*','b'] = ['a','\n','b'] ∨
          (isPattern ['a','*','b'] = true ∧
            globSpec ['a','*','b'] ['a','\n','b'] = true))) := by
  decide

/-- C7 (amended): for every subscription key and every newline-free
    published topic, the key matches the topic iff the key equals the topic,
    or the key is a pattern (contains the wildcard marker) whose compiled
    regex --- wildcard standing for an any-length span of any characters,
    anchored at both ends --- fully matches the topic. -/
theorem wildcard_match_amended (key topic : List Char) (ht : '\n' ∉ topic) :
    busMatchKey key topic = true ↔
      (key = topic ∨ (isPattern key = true ∧ globSpec key topic = true)) := by
  unfold busMatchKey
  by_cases hp : isPattern key = true
  · rw [if_pos hp, reMatch_eq_globSpec key topic ht]
    constructor
    · intro h
      exact Or.inr ⟨hp, h⟩
    · rintro (rfl | ⟨-, h⟩)
      · exact globSpec_self key
      · exact h
  · rw [if_neg hp]
    constructor
    · intro h
      exact Or.inl (by simpa using h)
    · rintro (rfl | ⟨hp2, -⟩)
      · simp
      · exact absurd hp2 hp

/-- C7 witness: `signal:*` matches `signal:BTCUSDT_1m` and
    `signal:ETHUSDT_1h` but not `ohlcv:BTCUSDT_1m`. -/
theorem wildcard_match_amended_witness :
    ('\n' ∉ topicBTC ∧ '\n' ∉ topicETH ∧ '\n' ∉ topicOhlcv) ∧
      busMatchKey sigStar topicBTC = true ∧
      busMatchKey sigStar topicETH = true ∧
      busMatchKey sigStar topicOhlcv = false := by
  refine ⟨⟨by decide, by decide, by decide⟩, ?_, ?_, ?_⟩
  · exact (wildcard_match_amended sigStar topicBTC (by decide)).mpr
      (Or.inr ⟨by decide, by decide⟩)
  · exact (wildcard_match_amended sigStar topicETH (by decide)).mpr
      (Or.inr ⟨by decide, by decide⟩)
  · exact Bool.eq_false_iff.mpr (fun hbt =>
      absurd ((wildcard_match_amended sigStar topicOhlcv (by decide)).mp hbt)
        (by decide))

/-! ## Helper lemma: ceiling vs floor at non-integer points -/

theorem ceil_eq_floor_add_one_of_not_int (q : Rat) (h : ∀ k : Int, q ≠ k) :
    (⌈q⌉ : Int) = ⌊q⌋ + 1 := by
  have h1 : (⌊q⌋ : Rat) < q :=
    lt_of_le_of_ne (Int.floor_le q) (fun he => h ⌊q⌋ he.symm)
  have h2 : ⌈q⌉ ≤ ⌊q⌋ + 1 := by
    apply Int.ceil_le.mpr
    push_cast
    exact le_of_lt (Int.lt_floor_add_one q)
  have h3 : (⌊q⌋ : Rat) < (⌈q⌉ : Rat) := lt_of_lt_of_le h1 (Int.le_ceil q)
  have h4 : ⌊q⌋ < ⌈q⌉ := by exact_mod_cast h3
  omega

/-! ## C4: scheduler fire-time alignment -/

/-- C4 counterexample: the claim says the computed wake-up time equals
    `ceil(now / D) * D + B` for EVERY `now`, including exact multiples of
    `D`.  At server time 60000 ms (`now = 60`), `D = 60`, `B = 2`, the code
    computes `(60 // 60 + 1) * 60 + 2 = 122` while `ceil(60/60)*60 + 2 = 62`. -/
theorem next_fire_ceil_counterexample :
    nextRun 60000 60 2 = 122 ∧ specNextFire 60000 60 2 = 62 ∧
      nextRun 60000 60 2 ≠ specNextFire 60000 60 2 := by
  refine ⟨?_, ?_, ?_⟩ <;> with_unfolding_all decide

/-- C4 (amended): the loop computes the wake-up time as
    `(floor(now / D) + 1) * D + B`; whenever `now` is NOT an exact multiple
    of `D` this coincides with the claim's `ceil(now / D) * D + B`. -/
theorem next_fire_alignment_amended (ms : Int) (sec : Nat) (b : Int)
    (hsec : 0 < sec) (hnd : ¬ ((1000 * (sec : Int)) ∣ ms)) :
    nextRun ms sec b = specNextFire ms sec b := by
  simp only [nextRun, specNextFire]
  have hq : ∀ k : Int, (ms : Rat) / 1000 / (sec : Rat) ≠ k := by
    intro k hk
    apply hnd
    rw [div_div] at hk
    have hs0 : ((1000 : Rat) * (sec : Rat)) ≠ 0 := by
      have : (sec : Rat) ≠ 0 := by
        exact_mod_cast Nat.pos_iff_ne_zero.mp hsec
      positivity
    have hmk : (ms : Rat) = k * (1000 * (sec : Rat)) := (div_eq_iff hs0).mp hk
    have hmk2 : (ms : Int) = k * (1000 * (sec : Int)) := by exact_mod_cast hmk
    exact ⟨k, by linarith⟩
  rw [ceil_eq_floor_add_one_of_not_int _ hq]
  push_cast
  ring

/-- C4 witness: at `now = 90` s (not a multiple of `D = 60`), both formulas
    give 122. -/
theorem next_fire_alignment_amended_witness :
    ((0 < 60) ∧ ¬ ((1000 * (60 : Int)) ∣ 90000)) ∧
      nextRun 90000 60 2 = specNextFire 90000 60 2 :=
  ⟨⟨by decide, by omega⟩,
   next_fire_alignment_amended 90000 60 2 (by decide) (by omega)⟩

/-! ## C5: trend hysteresis guard -/

/-- C5 counterexample: the claim says the hysteresis division is guarded by
    `max(|longEMA|, eps)`.  The divisor `signals.py:218` actually uses is
    `longEMA` itself: at `longEMA = 0` it is 0 (a division by zero) while
    the claimed guard is `eps`; at `longEMA = -5` it is `-5` while the
    claimed guard is `5`. -/
theorem hysteresis_guard_counterexample :
    trendHystDivisor 0 = 0 ∧
      (0 : Rat) ≠ max |(0 : Rat)| (1 / 1000000000000) ∧
      specHystGap 1 0 (1 / 1000000000000) = 1000000000000 ∧
      trendHystDivisor (-5) = -5 ∧
      max |(-5 : Rat)| (1 / 1000000000000) = 5 :=
  ⟨rfl, by norm_num, by norm_num [specHystGap], rfl, by norm_num⟩

/-- C5 (amended): when a crossing direction is active and volatility is
    confirmed, the hysteresis test computes
    `normalizedGap = (shortEMA - longEMA) / longEMA` with NO
    `max(|longEMA|, eps)` guard (undefined at `longEMA = 0`; numpy yields
    inf/nan there instead of raising), and compares `|normalizedGap|`
    against the threshold; for every nonzero `longEMA` that comparison is
    equivalent to `|shortEMA - longEMA| >= threshold * |longEMA|`. -/
theorem hysteresis_unguarded_amended :
    (∀ (cfg : TrendCfg) (df : List Bar) (p : Nat),
      hystGapAt cfg df p =
        (emaShortAt cfg df p - emaLongAt cfg df p) /
          trendHystDivisor (emaLongAt cfg df p)) ∧
    (∀ emaS emaL thr : Rat, emaL ≠ 0 →
      (|(emaS - emaL) / trendHystDivisor emaL| ≥ thr ↔
        |emaS - emaL| ≥ thr * |emaL|)) := by
  constructor
  · intro cfg df p
    rfl
  · intro S L thr hL
    unfold trendHystDivisor
    rw [abs_div, ge_iff_le, ge_iff_le, le_div_iff₀ (abs_pos.mpr hL)]

/-- C5 witness: the equivalence applied at `shortEMA = 2`, `longEMA = 1`,
    `threshold = 1/2`. -/
theorem hysteresis_unguarded_amended_witness :
    ((1 : Rat) ≠ 0) ∧
      (|((2 : Rat) - 1) / trendHystDivisor 1| ≥ (1 : Rat) / 2 ↔
        |(2 : Rat) - 1| ≥ 1 / 2 * |(1 : Rat)|) :=
  ⟨by norm_num, hysteresis_unguarded_amended.2 2 1 (1 / 2) (by norm_num)⟩

/-! ## C9: interval parsing -/

/-- C9 counterexample: the claim says the parser raises exactly for strings
    not of the form `<positive integer><unit>` with unit in s/m/h/d.  It
    does not: because it lowercases and strips first, `"15M"` and
    `" 15m "` --- malformed under the claim's grammar --- are accepted and
    parsed to 900. -/
theorem interval_normalization_counterexample :
    grammarOK ['1','5','M'] = false ∧
      grammarOK [' ','1','5','m',' '] = false ∧
      intervalSeconds ['1','5','M'] = some 900 ∧
      intervalSeconds [' ','1','5','m',' '] = some 900 := by
  decide

/-- C9 (amended): after trimming surrounding whitespace and lowercasing,
    the parser maps exactly the strings of the form
    `<positive integer><unit>` (unit in s/m/h/d, multipliers
    1/60/3600/86400) to value * multiplier and raises for everything else;
    in particular 15m gives 900, 4h gives 14400, 1d gives 86400, and the
    empty string, xh and 0m raise. -/
theorem interval_parse_amended :
    (∀ s : List Char,
      intervalSeconds s =
        if grammarOK (pyLower (pyStrip s)) = true
        then some (grammarVal (pyLower (pyStrip s))) else none) ∧
    intervalSeconds ['1','5','m'] = some 900 ∧
    intervalSeconds ['4','h'] = some 14400 ∧
    intervalSeconds ['1','d'] = some 86400 ∧
    intervalSeconds [] = none ∧
    intervalSeconds ['x','h'] = none ∧
    intervalSeconds ['0','m'] = none := by
  refine ⟨?_, by decide, by decide, by decide, by decide, by decide, by decide⟩
  intro s
  simp only [intervalSeconds, grammarOK, grammarVal]
  by_cases h1 : (pyLower (pyStrip s)).length < 2 ∨
      ¬ ((pyLower (pyStrip s)).dropLast.all Char.isDigit = true)
  · rw [if_pos h1, if_neg]
    simp only [Bool.and_eq_true, decide_eq_true_eq]
    rintro ⟨⟨⟨hlen, hdig⟩, -⟩, -⟩
    rcases h1 with h | h
    · omega
    · exact h hdig
  · rw [if_neg h1]
    push_neg at h1
    obtain ⟨hlen, hdig⟩ := h1
    cases hunit : unitSeconds ((pyLower (pyStrip s)).getLastD ' ') with
    | none => simp
    | some sec =>
      simp only [Option.isSome_some, Option.getD_some, Bool.and_true]
      by_cases hval : digitsVal (pyLower (pyStrip s)).dropLast ≤ 0
      · rw [if_pos hval, if_neg]
        simp only [Bool.and_eq_true, decide_eq_true_eq]
        rintro ⟨-, hpos⟩
        omega
      · rw [if_neg hval, if_pos]
        simp only [Bool.and_eq_true, decide_eq_true_eq]
        exact ⟨⟨by omega, hdig⟩, by omega⟩

/-! ## C6: EMA-cross detector -/

/-- C6: for every configuration and series, a series shorter than
    `max(shortWindow, longWindow) + 2` yields no result; a series at least
    that long yields direction UP exactly under the claim's UP crossing
    condition over the final two bars (and DOWN under the inverse), with
    strength `(shortEMA - longEMA) / max(|longEMA|, eps)` at the crossing
    bar, and no result when neither crossing holds. -/
theorem ema_cross_characterization (cfg : EmaCrossCfg) (df : List Bar) :
    (df.length < max cfg.emaShortW cfg.emaLongW + 2 →
      emaCrossCheck cfg df = none) ∧
    (max cfg.emaShortW cfg.emaLongW + 2 ≤ df.length →
      (emaCrossedUp cfg df →
        emaCrossCheck cfg df = some (emaCrossSignal cfg df Direction.UP)) ∧
      (emaCrossedDn cfg df →
        emaCrossCheck cfg df = some (emaCrossSignal cfg df Direction.DOWN)) ∧
      (¬ emaCrossedUp cfg df ∧ ¬ emaCrossedDn cfg df →
        emaCrossCheck cfg df = none)) := by
  simp only [emaCrossCheck, emaCrossedUp, emaCrossedDn, emaCrossShort,
    emaCrossLong, emaCrossSignal]
  constructor
  · intro h
    rw [if_pos h]
  · intro hlen
    have hne : ¬ (df.length < max cfg.emaShortW cfg.emaLongW + 2) := by omega
    have hml : cfg.emaLongW ≤ max cfg.emaShortW cfg.emaLongW :=
      Nat.le_max_right _ _
    have hisna : ¬ (df.length - 1 + 1 < cfg.emaLongW ∨
        df.length - 2 + 1 < cfg.emaLongW) := by
      omega
    refine ⟨?_, ?_, ?_⟩
    · intro hup
      rw [if_neg hne, if_neg hisna, if_pos (Or.inl hup), if_pos hup]
    · intro hdn
      have hnup : ¬ (emaVal cfg.emaShortW (df.map Bar.close) (df.length - 2) <
            emaVal cfg.emaLongW (df.map Bar.close) (df.length - 2) ∧
          emaVal cfg.emaShortW (df.map Bar.close) (df.length - 1) >
            emaVal cfg.emaLongW (df.map Bar.close) (df.length - 1)) := by
        rintro ⟨h1, -⟩
        exact absurd hdn.1 (not_lt.mpr (le_of_lt h1))
      rw [if_neg hne, if_neg hisna, if_pos (Or.inr hdn), if_neg hnup]
    · rintro ⟨hnup, hndn⟩
      rw [if_neg hne, if_neg hisna, if_neg]
      rintro (h | h)
      · exact hnup h
      · exact hndn h

/-- C6 witness: on `e4bars` (length 4 = need) the short EMA crosses above
    the long EMA at the last bar and the detector returns the UP signal with
    strength 1/449. -/
theorem ema_cross_characterization_witness :
    (max cfg4e.emaShortW cfg4e.emaLongW + 2 ≤ e4bars.length ∧
      emaCrossedUp cfg4e e4bars) ∧
      emaCrossCheck cfg4e e4bars = some sigE := by
  have hup : emaCrossedUp cfg4e e4bars := by with_unfolding_all decide
  have h := ((ema_cross_characterization cfg4e e4bars).2 (by decide)).1 hup
  have hsig : emaCrossSignal cfg4e e4bars Direction.UP = sigE := by
    simp only [emaCrossSignal, sigE, Signal.mk.injEq]
    refine ⟨by decide, by decide, by decide, trivial, ?_, ?_, ?_⟩
    · with_unfolding_all decide
    · decide
    · with_unfolding_all decide
  exact ⟨⟨by decide, hup⟩, h.trans (by rw [hsig])⟩

/-! ## Helper lemmas: the trend confirmation loop -/

theorem trendGo_isSome_iff (cfg : TrendCfg) (df : List Bar) :
    ∀ (n a : Nat), 1 ≤ n → a + n = cfg.confirmBars + 1 →
      ((trendGo cfg df (List.range' a n) (trendStateBefore cfg df a)).isSome = true ↔
        (trendFiresAt cfg df cfg.confirmBars ∧
          ∀ j < cfg.confirmBars, a ≤ j → ¬ trendFiresAt cfg df j)) := by
  intro n
  induction n with
  | zero =>
    intro a h1 _
    omega
  | succ k ih =>
    intro a _ hsum
    rw [List.range'_succ]
    simp only [trendGo]
    split
    case isTrue hraw =>
      have hf : trendFiresAt cfg df a := hraw
      by_cases hac : a = cfg.confirmBars
      · subst hac
        rw [if_pos rfl]
        simp only [Option.isSome_some]
        exact iff_of_true trivial
          ⟨hf, fun j hj haj => absurd hj (not_lt.mpr haj)⟩
      · rw [if_neg hac]
        simp only [Option.isSome_none]
        exact iff_of_false (by simp)
          (fun hc => hc.2 a (by omega) le_rfl hf)
    case isFalse hraw =>
      have hf : ¬ trendFiresAt cfg df a := hraw
      have hst : trendStep cfg df (scanPos cfg df a) (trendStateBefore cfg df a) =
          trendStateBefore cfg df (a + 1) := rfl
      rw [hst]
      cases k with
      | zero =>
        have hac : a = cfg.confirmBars := by omega
        simp only [List.range', trendGo, Option.isSome_none]
        exact iff_of_false (by simp) (fun hc => hf (hac ▸ hc.1))
      | succ k2 =>
        rw [ih (a + 1) (by omega) (by omega)]
        constructor
        · rintro ⟨h1, h2⟩
          refine ⟨h1, fun j hj haj => ?_⟩
          rcases Nat.eq_or_lt_of_le haj with rfl | hlt
          · exact hf
          · exact h2 j hj hlt
        · rintro ⟨h1, h2⟩
          exact ⟨h1, fun j hj haj => h2 j hj (by omega)⟩

theorem trendGo_fires_last (cfg : TrendCfg) (df : List Bar) :
    ∀ (n a : Nat), 1 ≤ n → a + n = cfg.confirmBars + 1 →
      (∀ j < cfg.confirmBars, a ≤ j → ¬ trendFiresAt cfg df j) →
      trendFiresAt cfg df cfg.confirmBars →
      trendGo cfg df (List.range' a n) (trendStateBefore cfg df a) =
        some (trendEmitSig cfg df) := by
  intro n
  induction n with
  | zero =>
    intro a h1 _
    omega
  | succ k ih =>
    intro a _ hsum hnot hfcb
    rw [List.range'_succ]
    simp only [trendGo]
    split
    case isTrue hraw =>
      have hf : trendFiresAt cfg df a := hraw
      have hac : a = cfg.confirmBars := by
        by_contra hne
        exact hnot a (by omega) le_rfl hf
      rw [if_pos hac]
      subst hac
      rfl
    case isFalse hraw =>
      have hf : ¬ trendFiresAt cfg df a := hraw
      have hst : trendStep cfg df (scanPos cfg df a) (trendStateBefore cfg df a) =
          trendStateBefore cfg df (a + 1) := rfl
      rw [hst]
      cases k with
      | zero =>
        exfalso
        have hac : a = cfg.confirmBars := by omega
        exact hf (hac ▸ hfcb)
      | succ k2 =>
        exact ih (a + 1) (by omega) (by omega)
          (fun j hj haj => hnot j hj (by omega)) hfcb

/-! ## C3: trend detector confirmation -/

/-- C3: (universal part) for every configuration and series meeting the
    length precondition, the trend detector emits (at most the one `Option`
    result) exactly when the crossing direction, the volatility-ratio flag
    and the hysteresis test first coincide on the loop's newest iteration
    and on no earlier one.  (Concrete part) on `s1bars` --- up-crossing at
    offset −3 (row 4), ratio first above the threshold at offset −2 (row 5),
    hysteresis first satisfied at offset −1 (row 6) --- it emits the UP
    signal at the final bar; on `s2bars`, identical except that hysteresis
    is already satisfied at offset −2, it emits nothing. -/
theorem trend_newest_bar_confirmation :
    (∀ (cfg : TrendCfg) (df : List Bar), trendNeed cfg ≤ df.length →
      ((trendCheck cfg df).isSome = true ↔
        (trendFiresAt cfg df cfg.confirmBars ∧
          ∀ j < cfg.confirmBars, ¬ trendFiresAt cfg df j))) ∧
    trendCheck cfg7 s1bars = some sig1 ∧
    sig1.direction = Direction.UP ∧
    upCrossAt cfg7 s1bars 4 ∧
    (¬ upCrossAt cfg7 s1bars 5 ∧ ¬ dnCrossAt cfg7 s1bars 5 ∧
      ¬ upCrossAt cfg7 s1bars 6 ∧ ¬ dnCrossAt cfg7 s1bars 6) ∧
    (¬ (ratioAt cfg7 s1bars 3 > cfg7.ratioThr) ∧
      ¬ (ratioAt cfg7 s1bars 4 > cfg7.ratioThr) ∧
      ratioAt cfg7 s1bars 5 > cfg7.ratioThr) ∧
    (¬ (|hystGapAt cfg7 s1bars 4| ≥ cfg7.hystThr) ∧
      ¬ (|hystGapAt cfg7 s1bars 5| ≥ cfg7.hystThr) ∧
      |hystGapAt cfg7 s1bars 6| ≥ cfg7.hystThr) ∧
    |hystGapAt cfg7 s2bars 5| ≥ cfg7.hystThr ∧
    trendCheck cfg7 s2bars = none := by
  refine ⟨?_, ?_, rfl, ?_, ?_, ?_, ?_, ?_, ?_⟩
  · intro cfg df hlen
    simp only [trendCheck]
    rw [if_neg (by omega), List.range_eq_range',
      show ((none : Option Direction), false) = trendStateBefore cfg df 0 from rfl,
      trendGo_isSome_iff cfg df (cfg.confirmBars + 1) 0 (by omega) (by omega)]
    constructor
    · rintro ⟨h1, h2⟩
      exact ⟨h1, fun j hj => h2 j hj (Nat.zero_le j)⟩
    · rintro ⟨h1, h2⟩
      exact ⟨h1, fun j hj _ => h2 j hj⟩
  · have hnot : ∀ j < cfg7.confirmBars, ¬ trendFiresAt cfg7 s1bars j := by
      with_unfolding_all decide
    have h := trendGo_fires_last cfg7 s1bars (cfg7.confirmBars + 1) 0
      (by omega) (by omega) (fun j hj _ => hnot j hj)
      (by with_unfolding_all decide)
    have hemit : trendEmitSig cfg7 s1bars = sig1 := by
      simp only [trendEmitSig, sig1, Signal.mk.injEq]
      refine ⟨by decide, by decide, by decide, ?_, ?_, ?_, ?_⟩
      · with_unfolding_all decide
      · with_unfolding_all decide
      · decide
      · with_unfolding_all decide
    simp only [trendCheck]
    rw [if_neg (by decide), List.range_eq_range',
      show ((none : Option Direction), false) = trendStateBefore cfg7 s1bars 0 from rfl,
      h, hemit]
  · with_unfolding_all decide
  · with_unfolding_all decide
  · with_unfolding_all decide
  · with_unfolding_all decide
  · with_unfolding_all decide
  · with_unfolding_all decide

/-- C3 witness: the universal characterization applied at `cfg7`, `s1bars`. -/
theorem trend_newest_bar_confirmation_witness :
    trendNeed cfg7 ≤ s1bars.length ∧
      ((trendCheck cfg7 s1bars).isSome = true ↔
        (trendFiresAt cfg7 s1bars cfg7.confirmBars ∧
          ∀ j < cfg7.confirmBars, ¬ trendFiresAt cfg7 s1bars j)) :=
  ⟨by decide, trend_newest_bar_confirmation.1 cfg7 s1bars (by decide)⟩
